import Mathlib

set_option autoImplicit false

/-!
Verification development for the zotero2papis migration tool
(`zotero2papis/zotero2papis.py`).  The Python source is shallowly embedded:
the filesystem is a set of existing paths plus an I/O-failure oracle for
`shutil.copyfile`, external library calls (`dateutil.parser.parse`) are
oracles passed in the configuration, and every side effect (directory
creation, file copy, metadata write, console notice) is recorded as an
explicit event.  Uncaught Python exceptions are modelled as error results.
-/

namespace Z2P

/-- Does the string start with a slash (posixpath absolute-path test used by
`os.path.join`). -/
def startsSlash (s : String) : Bool :=
  match s.toList with
  | '/' :: _ => true
  | _ => false

/-- Does the string end with a slash (used by `os.path.join`). -/
def endsSlash (s : String) : Bool :=
  match s.toList.reverse with
  | '/' :: _ => true
  | _ => false

/-- Model of `os.path.join(a, b)` (posixpath): an absolute second component replaces
the first; otherwise the parts are glued with exactly one slash. -/
def pjoin (a b : String) : String :=
  if startsSlash b then b
  else if a = "" then b
  else if endsSlash a then a ++ b
  else a ++ "/" ++ b

/-- Model of `os.path.basename`: the part of the path after the last slash. -/
def pbasename (s : String) : String :=
  String.mk ((s.toList.reverse.takeWhile (fun c => c != '/')).reverse)

/-- Model of `os.path.dirname`: the part before the last slash, with trailing slashes
stripped unless the result consists only of slashes. -/
def pdirname (s : String) : String :=
  let cs := s.toList
  let base := (cs.reverse.takeWhile (fun c => c != '/')).reverse
  let head := cs.take (cs.length - base.length)
  if head.isEmpty then String.mk head
  else if head.any (fun c => c != '/') then
    String.mk ((head.reverse.dropWhile (fun c => c == '/')).reverse)
  else String.mk head

/-- Python `s[:n]` for a nonnegative `n`. -/
def strTakeN (s : String) (n : Nat) : String :=
  String.mk (s.toList.take n)

/-- Python `s[n:]` for a nonnegative `n`. -/
def strDropN (s : String) (n : Nat) : String :=
  String.mk (s.toList.drop n)

/-- Python `s[:-n]` (drop the last `n` characters). -/
def strDropLastN (s : String) (n : Nat) : String :=
  String.mk (s.toList.take (s.toList.length - n))

/-- The test `path[:8] == "storage:"` (line 281 / line 380 of the source). -/
def storagePref (p : String) : Bool :=
  p.toList.take 8 == "storage:".toList

/-- One side effect of the pipeline, in execution order. -/
inductive Event where
  /-- `os.makedirs(target_dir)` -/
  | makedirs (d : String)
  /-- `shutil.copyfile(src, dst)` -/
  | copy (src dst : String) : Event
  /-- `yaml.dump(self.item, f)` into `{target_dir}/info.yaml` -/
  | writeInfo (p : String)
  /-- the `ENTRY HAS BEEN DELETED VIA ZOTERO` console notice -/
  | deletedNotice
  deriving DecidableEq, Repr

/-- The filesystem: the set of existing paths, plus an oracle telling which
`shutil.copyfile` calls raise an `OSError`. -/
structure FS where
  ex : List String
  copyFail : String → String → Bool

/-- Model of `os.path.exists`. -/
def FS.exP (fs : FS) (p : String) : Bool :=
  fs.ex.contains p

/-- Path created by `os.makedirs` or `shutil.copyfile` / `open(..., "w+")`. -/
def FS.add (fs : FS) (p : String) : FS :=
  { fs with ex := fs.ex ++ [p] }

/-- Static configuration of one run: the Zotero root, the output root, and
the `dateutil.parser.parse` oracle (`dp s = some y` means parsing `s`
succeeds and the parsed date has year `y`; `none` means it raises). -/
structure Cfg where
  zot_dir : String
  out_dir : String
  dp : String → Option Nat

/-- One row of the `itemAttachments` join: the Zotero key of the attachment item,
its `path` column and its `contentType` column. -/
structure AttRow where
  key : String
  path : String
  mime : String
  deriving DecidableEq, Repr

/-- The parts of `self.item` that `getFiles` reads: `self.item["date"]`
(absent field modelled as `none`) and `self.item["title"]`. -/
structure ItemCtx where
  date : Option String
  title : String

/-- The dict `self.includedAttachments` (the content-type whitelist), verbatim. -/
def includedAttachments : List (String × String) :=
  [("application/vnd.ms-htmlhelp", "chm"),
   ("image/vnd.djvu", "djvu"),
   ("application/msword", "doc"),
   ("application/vnd.openxmlformats-officedocument.wordprocessingml.document", "docx"),
   ("application/epub+zip", "epub"),
   ("application/octet-stream", "fb2"),
   ("application/x-mobipocket-ebook", "mobi"),
   ("application/pdf", "pdf"),
   ("text/rtf", "rtf"),
   ("application/zip", "zip")]

/-- Membership in the `IN {mimeTypes}` clause of the primary-attachment
query (the whitelist keys). -/
def isIncludedMime (m : String) : Bool :=
  (includedAttachments.map Prod.fst).contains m

/-- Model of `os.path.join(self.zot_dir, "storage", key, last)` — the storage-root
resolution pattern of lines 285, 317 and 390. -/
def storPath (cfg : Cfg) (key last : String) : String :=
  pjoin (pjoin (pjoin cfg.zot_dir "storage") key) last

/-- The two-stage date parse of lines 288-292 / 394-397:
`dateutil.parser.parse(self.item["date"])`, and on failure
`dateutil.parser.parse(self.item["date"][:-3])`.  `none` means both stages
raise (an uncaught exception), including the case of a missing date field
(the first `KeyError` is swallowed by the bare `except`, the second one
propagates). -/
def yearOf (dp : String → Option Nat) (date : Option String) : Option Nat :=
  match date with
  | none => none
  | some s =>
    match dp s with
    | some y => some y
    | none => dp (strDropLastN s 3)

/-- An uncaught Python exception escaping `getFiles`. -/
inductive GFErr where
  /-- both date parses raised (line 292) -/
  | dateError
  /-- `shutil.copyfile` raised outside any `try` (line 342) -/
  | copyError
  /-- `NameError` on the bare name `defaultFile` (line 421) -/
  | nameErrorDefaultFile
  /-- `UnboundLocalError` on `target_dir` at the return (line 423) -/
  | targetUnbound
  deriving DecidableEq, Repr

/-- Result of `getFiles`: the Python triples
`({"files": files}, target_dir, False)` and `(None, None, True)`, or an
uncaught exception. -/
inductive GFRes where
  | ok (files : List String) (target : String)
  | deleted
  | err (e : GFErr)
  deriving DecidableEq, Repr

/-- Mutable state of the two loops in `getFiles`: the filesystem, the event
log, the `files` accumulator, and the local variable `target_dir`
(`none` = still unbound). -/
structure GFSt where
  fs : FS
  evs : List Event
  files : List String
  tgt : Option String

/-- Outcome of one loop iteration (or of a whole loop). -/
inductive LoopRes where
  /-- the `return None, None, True` of line 338 -/
  | deleted (fs : FS) (evs : List Event)
  /-- an uncaught exception -/
  | err (e : GFErr) (fs : FS) (evs : List Event)
  | cont (st : GFSt)

/-- Lines 305-343: the tail of one primary-loop iteration, after the
path-scheme branch fixed `path` and `dirname`. -/
def primRowRest (cfg : Cfg) (key path dirname : String) (st : GFSt) : LoopRes :=
  let target_dir := pjoin cfg.out_dir dirname
  let original := storPath cfg key (pbasename path)
  let dest := pjoin target_dir (pbasename path)
  let files := st.files ++ [pbasename path]
  if st.fs.exP dest && !(st.fs.exP original) then
    -- line 325: destination present, original gone: "already been moved"
    .cont { st with files := files, tgt := some target_dir }
  else if path != dest then
    if !(st.fs.exP path) then
      if !(st.fs.exP (pdirname path)) then
        -- line 338: the entry has been deleted at the source
        .deleted st.fs st.evs
      else
        -- line 339: file missing but its directory is present: continue
        .cont { st with files := files, tgt := some target_dir }
    else
      let made := !(st.fs.exP target_dir)
      let fs1 := if made then st.fs.add target_dir else st.fs
      let evs1 := if made then st.evs ++ [.makedirs target_dir] else st.evs
      if fs1.copyFail path dest then
        -- line 342 is not inside a try: the exception propagates
        .err .copyError fs1 evs1
      else
        .cont { fs := fs1.add dest, evs := evs1 ++ [.copy path dest],
                files := files, tgt := some target_dir }
  else
    .cont { st with files := files, tgt := some target_dir }

/-- Lines 281-303: the path-scheme branch.  For a `storage:`-prefixed path,
resolve it under the per-key storage root and name the directory
`{year}_{title}`; for a legacy path, keep it and name the directory after
the parent directory of the path.  `none` models the uncaught exception of the
two-stage date parse. -/
def primResolved (cfg : Cfg) (it : ItemCtx) (row : AttRow) :
    Option (String × String) :=
  if storagePref row.path then
    match yearOf cfg.dp it.date with
    | none => none
    | some y =>
      some (storPath cfg row.key (strDropN row.path 8),
            toString y ++ "_" ++ it.title)
  else
    some (row.path, pbasename (pdirname row.path))

/-- Lines 267-343: one iteration of the primary-attachment loop. -/
def primRow (cfg : Cfg) (it : ItemCtx) (row : AttRow) (st : GFSt) : LoopRes :=
  match primResolved cfg it row with
  | none => .err .dateError st.fs st.evs
  | some (path, dirname) => primRowRest cfg row.key path dirname st

/-- The whole primary-attachment loop. -/
def primLoop (cfg : Cfg) (it : ItemCtx) : List AttRow → GFSt → LoopRes
  | [], st => .cont st
  | row :: rest, st =>
    match primRow cfg it row st with
    | .deleted fs evs => .deleted fs evs
    | .err e fs evs => .err e fs evs
    | .cont st' => primLoop cfg it rest st'

/-- Lines 370-419: one iteration of the secondary-attachment loop
(`hasPdf` is the Python `has_pdf` flag). -/
def secRow (cfg : Cfg) (it : ItemCtx) (hasPdf : Bool) (row : AttRow)
    (st : GFSt) : LoopRes :=
  if !(storagePref row.path) then .cont st
  else
    let filename := strDropN row.path 8
    let original := storPath cfg row.key filename
    let withDest (fs1 : FS) (evs1 : List Event) (tgt1 : Option String)
        (dest : String) : LoopRes :=
      let files := st.files ++ [filename]
      if fs1.exP dest then
        -- line 406: "Already exists"
        .cont { fs := fs1, evs := evs1, files := files, tgt := tgt1 }
      else if fs1.exP original then
        if fs1.exP (pdirname dest) then
          if fs1.copyFail original dest then
            -- line 416: the copy failure is caught and logged
            .cont { fs := fs1, evs := evs1, files := files, tgt := tgt1 }
          else
            .cont { fs := fs1.add dest, evs := evs1 ++ [.copy original dest],
                    files := files, tgt := tgt1 }
        else
          -- line 415: "Directory does not exist"
          .cont { fs := fs1, evs := evs1, files := files, tgt := tgt1 }
      else
        -- line 419: "The original file ... does not exist"
        .cont { fs := fs1, evs := evs1, files := files, tgt := tgt1 }
    if hasPdf then
      match st.tgt with
      | none => .err .targetUnbound st.fs st.evs
      | some td => withDest st.fs st.evs (some td) (pjoin td filename)
    else
      match yearOf cfg.dp it.date with
      | none => .err .dateError st.fs st.evs
      | some y =>
        let td := pjoin cfg.out_dir (toString y ++ "_" ++ it.title)
        let made := !(st.fs.exP td)
        let fs1 := if made then st.fs.add td else st.fs
        let evs1 := if made then st.evs ++ [.makedirs td] else st.evs
        withDest fs1 evs1 (some td) (pjoin td filename)

/-- The whole secondary-attachment loop. -/
def secLoop (cfg : Cfg) (it : ItemCtx) (hasPdf : Bool) :
    List AttRow → GFSt → LoopRes
  | [], st => .cont st
  | row :: rest, st =>
    match secRow cfg it hasPdf row st with
    | .deleted fs evs => .deleted fs evs
    | .err e fs evs => .err e fs evs
    | .cont st' => secLoop cfg it hasPdf rest st'

/-- Model of `ZoteroSQLParser.getFiles` (lines 229-423).  `atts` is the full
attachment row list of the item; the primary pass iterates over its
restriction to whitelisted content types, the secondary pass over all of
it.  Returns the result together with the final filesystem and the list of
performed effects. -/
def getFiles (cfg : Cfg) (it : ItemCtx) (atts : List AttRow) (fs : FS) :
    GFRes × FS × List Event :=
  let prim := atts.filter (fun r => isIncludedMime r.mime)
  let hasPdf := !prim.isEmpty
  match primLoop cfg it prim { fs := fs, evs := [], files := [], tgt := none } with
  | .deleted fs' evs => (.deleted, fs', evs)
  | .err e fs' evs => (.err e, fs', evs)
  | .cont st1 =>
    match secLoop cfg it hasPdf atts st1 with
    | .deleted fs' evs => (.deleted, fs', evs)
    | .err e fs' evs => (.err e, fs', evs)
    | .cont st2 =>
      if st2.files.isEmpty then
        -- line 421: evaluating the bare name `defaultFile` raises NameError
        (.err .nameErrorDefaultFile, st2.fs, st2.evs)
      else
        match st2.tgt with
        | some td => (.ok st2.files td, st2.fs, st2.evs)
        | none => (.err .targetUnbound, st2.fs, st2.evs)

/-! ## Field map, citation-key extraction and the per-item run loop -/

/-- Association-list lookup: the read side of a Python `dict` (first match
wins; `aset` keeps keys unique, mirroring dict key identity). -/
def aget {α : Type} : List (String × α) → String → Option α
  | [], _ => none
  | (k, v) :: rest, key => if k = key then some v else aget rest key

/-- Association-list update-or-append: Python `d[key] = v` (an existing key
keeps its position, a new key is appended — dict insertion order). -/
def aset {α : Type} : List (String × α) → String → α → List (String × α)
  | [], key, v => [(key, v)]
  | (k, w) :: rest, key, v =>
    if k = key then (k, v) :: rest else (k, w) :: aset rest key v

/-- The dict `self.translatedFields` (DOI to doi) applied via `.get(name, name)`
(line 105). -/
def translateField (n : String) : String :=
  if n = "DOI" then "doi" else n

/-- Model of `ZoteroSQLParser.getFields` (lines 65-108): fold the queried
`(fieldName, value)` rows into a dict, translating field names;
last write wins on duplicates. -/
def getFields (rows : List (String × String)) : List (String × String) :=
  rows.foldl (fun d r => aset d (translateField r.1) r.2) []

/-- Lines 473-475 of `run`: a date value with more than one
space-separated token is reduced to its first token. -/
def reduceDate (fields : List (String × String)) : List (String × String) :=
  match aget fields "date" with
  | none => fields
  | some v =>
    if v.toList.contains ' ' then
      aset fields "date" (String.mk (v.toList.takeWhile (fun c => c != ' ')))
    else fields

/-- Python `\w` on the word characters appearing in Zotero keys. -/
def isWordChar (c : Char) : Bool :=
  c.isAlphanum || c == '_'

/-- The literal part of the pattern `.*Citation Key: (\w+)`. -/
def ckHeader : List Char :=
  "Citation Key: ".toList

/-- Match `Citation Key: (\w+)` at the head of the suffix: the literal
header followed by at least one word character; the group is the maximal
word-character run. -/
def ckAt (cs : List Char) : Option String :=
  if cs.take ckHeader.length = ckHeader then
    let w := (cs.drop ckHeader.length).takeWhile isWordChar
    if w.isEmpty then none else some (String.mk w)
  else none

/-- Match `.*Citation Key: (\w+)` anchored at the head of the suffix:
the greedy `.*` (which cannot cross a newline) prefers the rightmost
occurrence on the line, as the backtracking regex engine does. -/
def tryFrom : List Char → Option String
  | [] => none
  | c :: rest =>
    if c == '\n' then ckAt (c :: rest)
    else
      match tryFrom rest with
      | some t => some t
      | none => ckAt (c :: rest)

/-- Model of `re.search`: try each start position from the left, returning the first
position at which the anchored pattern matches. -/
def searchCK : List Char → Option String
  | [] => none
  | c :: rest =>
    match tryFrom (c :: rest) with
    | some t => some t
    | none => searchCK rest

/-- The call `re.search` on the citation-key pattern, returning group 1
(lines 483-485). -/
def findCitationKey (s : String) : Option String :=
  searchCK s.toList

/-- Lines 480-485 of `run`: the reference id is the citation-key token when
`extra` is truthy (present and nonempty) and the pattern matches, otherwise
the Zotero key of the item. -/
def refOf (itemKey : String) (fields : List (String × String)) : String :=
  match aget fields "extra" with
  | none => itemKey
  | some e =>
    if e = "" then itemKey
    else
      match findCitationKey e with
      | some t => t
      | none => itemKey

/-- An uncaught exception escaping the body of `run` for one item. -/
inductive RErr where
  /-- `KeyError` on `fields["title"]` at the progress print (lines 477-479,
  one of the two branches always runs) -/
  | keyErrorTitle
  /-- an exception propagating out of `getFiles` -/
  | gf (e : GFErr)
  deriving DecidableEq, Repr

/-- The per-item data `run` reads: the Zotero key of the item, the raw
`(fieldName, value)` rows, and the attachment rows. -/
structure ItemInput where
  key : String
  fieldsRaw : List (String × String)
  atts : List AttRow

/-- Lines 527-531: the Archive Writer — write `{target_dir}/info.yaml`
exactly when the target directory exists and the file does not. -/
def archiveStep (fs : FS) (td : String) (evs : List Event) : FS × List Event :=
  if fs.exP td && !(fs.exP (pjoin td "info.yaml")) then
    (fs.add (pjoin td "info.yaml"), evs ++ [.writeInfo (pjoin td "info.yaml")])
  else (fs, evs)

/-- The body of the `run` loop for one item (lines 467-531), in the
non-verbose configuration.  The dead recovery loop of lines 519-525 is kept
verbatim (its condition needs a file to exist inside a non-existing
directory). -/
def runStep (cfg : Cfg) (it : ItemInput) (fs : FS) :
    Except RErr (FS × List Event) :=
  let fields := reduceDate (getFields it.fieldsRaw)
  match aget fields "title" with
  | none => .error .keyErrorTitle
  | some title =>
    -- the reference id of the merged record is refOf it.key fields
    match getFiles cfg ⟨aget fields "date", title⟩ it.atts fs with
    | (.deleted, fs', evs) => .ok (fs', evs ++ [.deletedNotice])
    | (.err e, _, _) => .error (.gf e)
    | (.ok files td, fs', evs) =>
      let made := !(fs'.exP td) && files.any (fun f => fs'.exP (pjoin td f))
      let fs2 := if made then fs'.add td else fs'
      let evs2 := if made then evs ++ [.makedirs td] else evs
      .ok (archiveStep fs2 td evs2)

/-- The whole `run` loop: items in order, stopping at the first uncaught
exception; the event log concatenates the per-item logs. -/
def runAll (cfg : Cfg) : List ItemInput → FS → Except RErr (FS × List Event)
  | [], fs => .ok (fs, [])
  | it :: rest, fs =>
    match runStep cfg it fs with
    | .error e => .error e
    | .ok (fs', evs) =>
      match runAll cfg rest fs' with
      | .error e => .error e
      | .ok (fs'', evs') => .ok (fs'', evs ++ evs')

/-! ## Creator extraction -/

/-- One row of the creators query (already ordered by the SQL
`ORDER BY creatorTypes.creatorType, itemCreators.orderIndex`): the creator
role, the first name and the last name. -/
structure CRow where
  role : String
  given : String
  surname : String
  deriving DecidableEq, Repr

/-- A value of the `creators` dict: either the joined display string or the
ordered list of `{given_name, surname}` pairs (modelled as
`(given_name, surname)`). -/
inductive DVal where
  | s (v : String)
  | l (v : List (String × String)) : DVal
  deriving DecidableEq, Repr

/-- One iteration of the `getCreators` loop (lines 152-167).  `none` models
the `TypeError`/`AttributeError` Python would raise if the two key families
collided and a string met a list operation. -/
def creatorsStep (d : List (String × DVal)) (row : CRow) :
    Option (List (String × DVal)) :=
  let cur : Option String :=
    match aget d row.role with
    | none => some ""
    | some (DVal.s s) => some s
    | some (DVal.l _) => none
  match cur with
  | none => none
  | some c =>
    let c2 := (if c ≠ "" then c ++ " and " else c) ++ row.surname ++ ", " ++ row.given
    let d1 := aset d row.role (DVal.s c2)
    let curL : Option (List (String × String)) :=
      match aget d1 (row.role ++ "_list") with
      | none => some []
      | some (DVal.l l) => some l
      | some (DVal.s _) => none
    match curL with
    | none => none
    | some l =>
      some (aset d1 (row.role ++ "_list") (DVal.l (l ++ [(row.given, row.surname)])))

/-- The `getCreators` fold over the queried rows. -/
def creatorsFold : List CRow → List (String × DVal) → Option (List (String × DVal))
  | [], d => some d
  | row :: rest, d =>
    match creatorsStep d row with
    | none => none
    | some d' => creatorsFold rest d'

/-- Model of `ZoteroSQLParser.getCreators` (lines 110-168) on the ordered query
result. -/
def getCreators (rows : List CRow) : Option (List (String × DVal)) :=
  creatorsFold rows []

/-- The `"surname, given-name"` display form of one creator row. -/
def fmtCreator (x : CRow) : String :=
  x.surname ++ ", " ++ x.given

/-- Join strings with the `" and "` separator. -/
def joinAnd : List String → String
  | [] => ""
  | [a] => a
  | a :: rest => a ++ " and " ++ joinAnd rest

/-- The rows of one role, in query order. -/
def roleRows (rows : List CRow) (r : String) : List CRow :=
  rows.filter (fun x => x.role == r)

/-- The expected joined string for one role. -/
def roleJoined (rows : List CRow) (r : String) : String :=
  joinAnd ((roleRows rows r).map fmtCreator)

/-- The expected `_list` value for one role. -/
def roleList (rows : List CRow) (r : String) : List (String × String) :=
  (roleRows rows r).map (fun x => (x.given, x.surname))

/-! ## Concrete run fixtures used by example-level theorems -/

/-- Does the event write to the output tree (a file copy or a metadata
write)? -/
def evWritesFS : Event → Bool
  | .copy _ _ => true
  | .writeInfo _ => true
  | _ => false

/-- Is the event a metadata (`info.yaml`) write? -/
def evInfoW : Event → Bool
  | .writeInfo _ => true
  | _ => false

/-- A copy oracle on which no copy ever fails. -/
def noFail : String → String → Bool := fun _ _ => false

/-- A concrete configuration: Zotero root `/z`, output root `/o`, and a
date oracle on which exactly `2016-05-01` parses (year 2016). -/
def cfgA : Cfg :=
  ⟨"/z", "/o", fun s => if s = "2016-05-01" then some 2016 else none⟩

/-- A whitelisted attachment in the `storage:` scheme. -/
def rowStor : AttRow := ⟨"K1", "storage:paper.pdf", "application/pdf"⟩

/-- The item owning `rowStor`, titled `Deep Learning`, dated `2016-05-01`. -/
def itemStor : ItemInput :=
  ⟨"ZKEY", [("title", "Deep Learning"), ("date", "2016-05-01")], [rowStor]⟩

/-- A filesystem holding only the stored source file of `rowStor`. -/
def fsStor : FS :=
  ⟨["/z", "/z/storage", "/z/storage/K1", "/z/storage/K1/paper.pdf"], noFail⟩

/-- A whitelisted attachment in the legacy (plain-path) scheme. -/
def rowLeg : AttRow := ⟨"K2", "/lib/X/Y/f.pdf", "application/pdf"⟩

/-- The item owning `rowLeg`. -/
def itemLeg : ItemInput :=
  ⟨"ZK2", [("title", "T"), ("date", "2016-05-01")], [rowLeg]⟩

/-- A filesystem where the destination of `rowLeg` exists but its source file,
the directory of the source, and the storage-root location are all gone. -/
def fsDest : FS := ⟨["/o", "/o/Y", "/o/Y/f.pdf"], noFail⟩

/-- A filesystem where the source file of `rowLeg` is missing but its containing
directory exists. -/
def fsPar : FS := ⟨["/lib", "/lib/X", "/lib/X/Y"], noFail⟩

/-- A filesystem where the legacy source file of `rowLeg` exists but nothing is
present at the `{zot_dir}/storage/{key}/...` location. -/
def fsSrc : FS :=
  ⟨["/lib", "/lib/X", "/lib/X/Y", "/lib/X/Y/f.pdf", "/o"], noFail⟩

/-- The example `extra` field text of the specification. -/
def extraEx : String :=
  "arXiv:1234 [cs]\nCitation Key: smith2020"

/-- An item with a title but no attachment rows at all. -/
def itemNoAtt : ItemInput := ⟨"ZK3", [("title", "T")], []⟩

/-- The filesystem after `getFiles` processes `rowStor` on `fsStor`. -/
def fsStorRun1 : FS :=
  ⟨["/z", "/z/storage", "/z/storage/K1", "/z/storage/K1/paper.pdf",
    "/o/2016_Deep Learning", "/o/2016_Deep Learning/paper.pdf"], noFail⟩

/-- The effects of `getFiles` on `rowStor` over `fsStor`. -/
def evsStorRun1 : List Event :=
  [.makedirs "/o/2016_Deep Learning",
   .copy "/z/storage/K1/paper.pdf" "/o/2016_Deep Learning/paper.pdf"]

/-- The filesystem after `getFiles` processes `rowLeg` on `fsSrc`. -/
def fsSrcRun1 : FS :=
  ⟨["/lib", "/lib/X", "/lib/X/Y", "/lib/X/Y/f.pdf", "/o",
    "/o/Y", "/o/Y/f.pdf"], noFail⟩

/-- The effects of `getFiles` on `rowLeg` over `fsSrc`. -/
def evsSrcRun1 : List Event :=
  [.makedirs "/o/Y", .copy "/lib/X/Y/f.pdf" "/o/Y/f.pdf"]

/-- A filesystem holding only the output root: the source of `rowLeg`, its
parent directory, its destination and its storage-root location are all
absent. -/
def fsEmpty : FS := ⟨["/o"], noFail⟩

/-- The creator rows of the ordering example of the specification, in query
order: (Turing, Alan) then (Church, Alonzo), both with role `author`. -/
def rowsW : List CRow :=
  [⟨"author", "Alan", "Turing"⟩, ⟨"author", "Alonzo", "Church"⟩]

/-- The paths of the first filesystem all exist in the second. -/
def fsLe (a b : FS) : Prop :=
  ∀ q, q ∈ a.ex → q ∈ b.ex

/-- The second event log adds no metadata write over the first. -/
def noNewInfo (evs evs' : List Event) : Prop :=
  ∀ p, Event.writeInfo p ∈ evs' → Event.writeInfo p ∈ evs

/-- A loop result only grows the filesystem and adds no metadata write. -/
def loopExt (st : GFSt) : LoopRes → Prop
  | .deleted fs' evs' => fsLe st.fs fs' ∧ noNewInfo st.evs evs'
  | .err _ fs' evs' => fsLe st.fs fs' ∧ noNewInfo st.evs evs'
  | .cont st' => fsLe st.fs st'.fs ∧ noNewInfo st.evs st'.evs

/-! ## Theorems -/

/-- C1 counterexample: running the pipeline twice over an unchanged source
and output tree does NOT perform zero writes on the second run.  Starting
from a tree holding only the stored source file, the first run copies the
file and writes `info.yaml`; the second run, on the tree the first run
left, still performs a filesystem write (it copies the primary file again,
because the primary loop has no already-copied skip), although it performs
no `info.yaml` write. -/
theorem C1_counterexample :
    ((runAll cfgA [itemStor] fsStor).toOption.bind
      (fun p => (runAll cfgA [itemStor] p.1).toOption)).map
        (fun q => (q.2.any evWritesFS, q.2.any evInfoW)) = some (true, false) := by
  decide

/-- C2 counterexample: an item whose resolved primary attachment source
path (`/lib/X/Y/f.pdf`) does not exist and whose parent directory
(`/lib/X/Y`) does not exist either is NOT aborted as deleted when the
destination file already exists: the already-migrated branch of line 325
runs first, keeps the filename, and `getFiles` returns normally. -/
theorem C2_counterexample :
    (getFiles cfgA ⟨some "2016-05-01", "T"⟩ [rowLeg] fsDest).1
        = GFRes.ok ["f.pdf"] "/o/Y" ∧
      fsDest.exP rowLeg.path = false ∧
      fsDest.exP (pdirname rowLeg.path) = false := by
  decide

/-- C3 counterexample: an attachment whose source file is missing while its
parent directory exists is NOT omitted from the files list: line 322
appends the basename before the existence check of line 334, so the
missing `f.pdf` is still listed in the result. -/
theorem C3_counterexample :
    (getFiles cfgA ⟨some "2016-05-01", "T"⟩ [rowLeg] fsPar).1
        = GFRes.ok ["f.pdf"] "/o/Y" ∧
      fsPar.exP rowLeg.path = false ∧
      fsPar.exP (pdirname rowLeg.path) = true := by
  decide

/-- C8 counterexample: for a legacy-scheme primary attachment the copy
reads from the plain path of the attachment, not from
`{source_root}/storage/{attachment_key}/{basename(path)}`: with the plain
path present and the storage-root location absent, `getFiles` still copies,
and the copy source recorded is the plain path, which differs from the
storage-root location. -/
theorem C8_counterexample :
    (getFiles cfgA ⟨some "2016-05-01", "T"⟩ [rowLeg] fsSrc).2.2
        = [Event.makedirs "/o/Y", Event.copy "/lib/X/Y/f.pdf" "/o/Y/f.pdf"] ∧
      fsSrc.exP (storPath cfgA rowLeg.key (pbasename rowLeg.path)) = false ∧
      rowLeg.path ≠ storPath cfgA rowLeg.key (pbasename rowLeg.path) := by
  decide

/-- C9: the claim says an item whose field map lacks a `title` entry is
tolerated (a warning at most) and processing continues; the code instead
raises an uncaught `KeyError` at the progress print of lines 477-479 (one
of the two branches always subscripts `fields["title"]`), aborting the
whole run on such an item. -/
theorem C9_missing_title_aborts :
    runStep cfgA ⟨"ZKEY", [("date", "2020")], []⟩ fsStor
      = Except.error RErr.keyErrorTitle := by
  rfl

/-- C6: the reference id is the citation-key token whenever the item's
`extra` field matches `.*Citation Key: (\w+)`, and the external key of the item
when there is no match or no `extra` field; the extraction is a total
function. -/
theorem C6_refid (key : String) (fields : List (String × String)) :
    (∀ e t, aget fields "extra" = some e → findCitationKey e = some t →
      refOf key fields = t) ∧
    (∀ e, aget fields "extra" = some e → findCitationKey e = none →
      refOf key fields = key) ∧
    (aget fields "extra" = none → refOf key fields = key) := by
  refine ⟨fun e t he hf => ?_, fun e he hf => ?_, fun h => ?_⟩
  · by_cases he0 : e = ""
    · subst he0
      have hnone : findCitationKey "" = none := rfl
      rw [hnone] at hf
      cases hf
    · simp [refOf, he, he0, hf]
  · by_cases he0 : e = ""
    · subst he0
      simp [refOf, he]
    · simp [refOf, he, he0, hf]
  · simp [refOf, h]

/-- C6 witness: the concrete instance of the claim — extra text
`"arXiv:1234 [cs]\nCitation Key: smith2020"` yields reference id
`smith2020`. -/
theorem C6_refid_witness :
    refOf "KEY1" [("extra", extraEx)] = "smith2020" :=
  (C6_refid "KEY1" [("extra", extraEx)]).1 extraEx "smith2020"
    (by decide) (by decide)

/-- A secondary-loop pass over rows none of which uses the `storage:`
scheme leaves the loop state untouched (line 380 skips every row). -/
theorem secLoop_skips (cfg : Cfg) (it : ItemCtx) (hp : Bool) :
    ∀ (rows : List AttRow) (st : GFSt),
      (∀ r ∈ rows, storagePref r.path = false) →
      secLoop cfg it hp rows st = .cont st
  | [], _, _ => rfl
  | row :: rest, st, h => by
    have h0 : storagePref row.path = false := h row (List.mem_cons_self row rest)
    have hr : secRow cfg it hp row st = .cont st := by
      unfold secRow
      simp [h0]
    unfold secLoop
    rw [hr]
    exact secLoop_skips cfg it hp rest st
      (fun r hm => h r (List.mem_cons_of_mem _ hm))

/-- C10: an item that is not signalled deleted and retains no filename in
either pass (no whitelisted attachment and no `storage:`-scheme attachment,
so the `files` list stays empty) makes `getFiles` evaluate the undefined
bare name `defaultFile` at line 421, raising a name error that aborts the
whole run at that item. -/
theorem C10_empty_files_aborts (cfg : Cfg) (it : ItemInput) (fs : FS)
    (rest : List ItemInput) (ttl : String)
    (htitle : aget (reduceDate (getFields it.fieldsRaw)) "title" = some ttl)
    (hprim : it.atts.filter (fun r => isIncludedMime r.mime) = [])
    (hsec : ∀ r ∈ it.atts, storagePref r.path = false) :
    runStep cfg it fs = .error (RErr.gf GFErr.nameErrorDefaultFile) ∧
    runAll cfg (it :: rest) fs = .error (RErr.gf GFErr.nameErrorDefaultFile) := by
  have hgf : getFiles cfg ⟨aget (reduceDate (getFields it.fieldsRaw)) "date", ttl⟩
      it.atts fs = (.err .nameErrorDefaultFile, fs, []) := by
    unfold getFiles
    rw [hprim]
    simp only [primLoop, List.isEmpty_nil, Bool.not_true]
    rw [secLoop_skips cfg _ false it.atts _ hsec]
    rfl
  have hstep : runStep cfg it fs = .error (.gf .nameErrorDefaultFile) := by
    unfold runStep
    simp only [htitle, hgf]
  refine ⟨hstep, ?_⟩
  unfold runAll
  rw [hstep]

/-- The function `takeWhile` keeps a list all of whose elements satisfy the predicate. -/
theorem takeWhile_all {p : Char → Bool} :
    ∀ l : List Char, (∀ c ∈ l, p c = true) → l.takeWhile p = l
  | [], _ => rfl
  | c :: rest, h => by
    simp only [List.takeWhile_cons, h c (List.mem_cons_self c rest), if_true]
    rw [takeWhile_all rest (fun x hx => h x (List.mem_cons_of_mem _ hx))]

/-- The function `takeWhile` over a good prefix followed by a failing element returns
exactly the prefix. -/
theorem takeWhile_append_stop {p : Char → Bool} (c : Char) (hc : p c = false) :
    ∀ (l1 l2 : List Char), (∀ x ∈ l1, p x = true) →
      (l1 ++ c :: l2).takeWhile p = l1
  | [], l2, _ => by simp [List.takeWhile_cons, hc]
  | a :: rest, l2, h => by
    simp only [List.cons_append, List.takeWhile_cons,
      h a (List.mem_cons_self a rest), if_true]
    rw [takeWhile_append_stop c hc rest l2
      (fun x hx => h x (List.mem_cons_of_mem _ hx))]

/-- String concatenation concatenates character lists. -/
theorem toList_append (a b : String) :
    (a ++ b).toList = a.toList ++ b.toList :=
  String.data_append a b

/-- The character list of the slash string. -/
theorem slashToList : ("/" : String).toList = ['/'] := rfl

/-- Every character of a `pbasename` result differs from the slash. -/
theorem pbasename_noslash (s : String) :
    ∀ c ∈ (pbasename s).toList, (c != '/') = true := by
  intro c hc
  have hc2 : c ∈ s.toList.reverse.takeWhile (fun c => c != '/') :=
    List.mem_reverse.mp hc
  exact @List.mem_takeWhile_imp Char (fun c => c != '/')
    s.toList.reverse c hc2

/-- The model `pbasename` is the identity on slash-free strings. -/
theorem pbasename_of_noslash (b : String)
    (h : ∀ c ∈ b.toList, (c != '/') = true) : pbasename b = b := by
  unfold pbasename
  rw [takeWhile_all _ (fun c hc => h c (List.mem_reverse.mp hc)),
    List.reverse_reverse]
  rfl

/-- A string testing as slash-initial has a slash-initial character list. -/
theorem startsSlash_toList (b : String) (h : startsSlash b = true) :
    ∃ t, b.toList = '/' :: t := by
  unfold startsSlash at h
  split at h
  · next t heq => exact ⟨t, heq⟩
  · cases h

/-- A string testing as slash-final has a slash-initial reversed list. -/
theorem endsSlash_toList (a : String) (h : endsSlash a = true) :
    ∃ t, a.toList.reverse = '/' :: t := by
  unfold endsSlash at h
  split at h
  · next t heq => exact ⟨t, heq⟩
  · cases h

/-- The slash-free prefix extraction underlying `pbasename`, on lists. -/
theorem takeWhile_rev_core (bl rest : List Char)
    (h : ∀ c ∈ bl, (c != '/') = true) :
    ((bl.reverse ++ '/' :: rest).takeWhile (fun c => c != '/')).reverse = bl := by
  rw [takeWhile_append_stop '/' (by decide) _ rest
      (fun x hx => h x (List.mem_reverse.mp hx)),
    List.reverse_reverse]

/-- The basename of a joined path whose final component is slash-free is
that final component. -/
theorem pbasename_pjoin (a b : String)
    (h : ∀ c ∈ b.toList, (c != '/') = true) : pbasename (pjoin a b) = b := by
  unfold pjoin
  split
  · next hs =>
    obtain ⟨t, ht⟩ := startsSlash_toList b hs
    have := h '/' (by rw [ht]; exact List.mem_cons_self _ _)
    simp at this
  split
  · exact pbasename_of_noslash b h
  split
  · next he =>
    obtain ⟨t, ht⟩ := endsSlash_toList a he
    unfold pbasename
    rw [toList_append a b, List.reverse_append, ht,
      takeWhile_rev_core b.toList t h]
    rfl
  · unfold pbasename
    rw [toList_append (a ++ "/") b, List.reverse_append,
      toList_append a "/", slashToList, List.reverse_append]
    simp only [List.reverse_cons, List.reverse_nil, List.nil_append,
      List.singleton_append]
    rw [takeWhile_rev_core b.toList _ h]
    rfl

/-- A primary-loop iteration that continues records
`{output_root}/{dirname}` as the target directory. -/
theorem primRowRest_cont_tgt (cfg : Cfg) (key p dn : String) (st st' : GFSt)
    (h : primRowRest cfg key p dn st = .cont st') :
    st'.tgt = some (pjoin cfg.out_dir dn) := by
  simp only [primRowRest] at h
  repeat' split at h
  all_goals
    first
      | (injection h with h2; subst h2; rfl)
      | exact LoopRes.noConfusion h

/-- A secondary-loop iteration with a primary document present always
continues and preserves the target directory. -/
theorem secRow_true_keep (cfg : Cfg) (it : ItemCtx) (row : AttRow)
    (st : GFSt) (td : String) (ht : st.tgt = some td) :
    ∃ st', secRow cfg it true row st = .cont st' ∧ st'.tgt = some td := by
  simp only [secRow]
  split
  · exact ⟨st, rfl, ht⟩
  · rw [ht]
    repeat' split
    all_goals first
      | exact ⟨_, rfl, rfl⟩
      | simp_all

/-- The secondary loop with a primary document present always continues
and preserves the target directory. -/
theorem secLoop_true_keep (cfg : Cfg) (it : ItemCtx) :
    ∀ (rows : List AttRow) (st : GFSt) (td : String), st.tgt = some td →
      ∃ st', secLoop cfg it true rows st = .cont st' ∧ st'.tgt = some td
  | [], st, td, ht => ⟨st, rfl, ht⟩
  | row :: rest, st, td, ht => by
    obtain ⟨st1, h1, ht1⟩ := secRow_true_keep cfg it row st td ht
    obtain ⟨st2, h2, ht2⟩ := secLoop_true_keep cfg it rest st1 td ht1
    refine ⟨st2, ?_, ht2⟩
    unfold secLoop
    rw [h1]
    exact h2

/-- When the whitelist query returns exactly one attachment row and its
path-scheme resolution yields directory name `dn`, a successful `getFiles`
returns target directory `{output_root}/{dn}`. -/
theorem getFiles_ok_target (cfg : Cfg) (it : ItemCtx) (atts : List AttRow)
    (fs : FS) (row : AttRow) (p dn : String) (fl : List String) (td : String)
    (fs' : FS) (evs : List Event)
    (hprim : atts.filter (fun r => isIncludedMime r.mime) = [row])
    (hres : primResolved cfg it row = some (p, dn))
    (hok : getFiles cfg it atts fs = (.ok fl td, fs', evs)) :
    td = pjoin cfg.out_dir dn := by
  unfold getFiles at hok
  rw [hprim] at hok
  simp only [List.isEmpty_cons, Bool.not_false, primLoop, primRow, hres] at hok
  rcases hcase : primRowRest cfg row.key p dn
      { fs := fs, evs := [], files := [], tgt := none } with
    _ | _ | st1
  · simp only [hcase] at hok
    simp at hok
  · simp only [hcase] at hok
    simp at hok
  · simp only [hcase] at hok
    have ht1 : st1.tgt = some (pjoin cfg.out_dir dn) :=
      primRowRest_cont_tgt cfg row.key p dn _ st1 hcase
    obtain ⟨st2, h2, ht2⟩ :=
      secLoop_true_keep cfg it atts st1 (pjoin cfg.out_dir dn) ht1
    simp only [h2] at hok
    split at hok
    · simp at hok
    · simp only [ht2, Prod.mk.injEq, GFRes.ok.injEq] at hok
      exact hok.1.2.symm

/-- C4: for an item whose single whitelisted attachment uses the
`storage:` scheme, a successful `getFiles` yields the target directory
`{output_root}/{year}_{title}`, where the year comes from the two-stage
date parse (`yearOf`: parse the date field, and on failure reparse it with
its last 3 characters truncated). -/
theorem C4_storage_target (cfg : Cfg) (it : ItemCtx) (atts : List AttRow)
    (fs : FS) (row : AttRow) (y : Nat) (fl : List String) (td : String)
    (fs' : FS) (evs : List Event)
    (hprim : atts.filter (fun r => isIncludedMime r.mime) = [row])
    (hstor : storagePref row.path = true)
    (hy : yearOf cfg.dp it.date = some y)
    (hok : getFiles cfg it atts fs = (.ok fl td, fs', evs)) :
    td = pjoin cfg.out_dir (toString y ++ "_" ++ it.title) :=
  getFiles_ok_target cfg it atts fs row
    (storPath cfg row.key (strDropN row.path 8))
    (toString y ++ "_" ++ it.title) fl td fs' evs hprim
    (by simp [primResolved, hstor, hy]) hok

/-- C4 witness: the concrete instance of the claim — attachment path
`storage:paper.pdf`, title `Deep Learning`, date `2016-05-01` give target
directory `{output_root}/2016_Deep Learning`. -/
theorem C4_storage_target_witness :
    ("/o/2016_Deep Learning" : String)
      = pjoin cfgA.out_dir (toString 2016 ++ "_" ++ "Deep Learning") :=
  C4_storage_target cfgA ⟨some "2016-05-01", "Deep Learning"⟩ [rowStor]
    fsStor rowStor 2016 ["paper.pdf", "paper.pdf"] "/o/2016_Deep Learning"
    fsStorRun1 evsStorRun1 (by decide) (by decide) (by decide) (by rfl)

/-- C5: for an item whose single whitelisted attachment is a plain
(legacy) filesystem path without the `storage:` prefix, a successful
`getFiles` yields a target directory whose basename is the basename of the
parent directory of the path. -/
theorem C5_legacy_dirname (cfg : Cfg) (it : ItemCtx) (atts : List AttRow)
    (fs : FS) (row : AttRow) (fl : List String) (td : String)
    (fs' : FS) (evs : List Event)
    (hprim : atts.filter (fun r => isIncludedMime r.mime) = [row])
    (hstor : storagePref row.path = false)
    (hok : getFiles cfg it atts fs = (.ok fl td, fs', evs)) :
    pbasename td = pbasename (pdirname row.path) := by
  have h := getFiles_ok_target cfg it atts fs row row.path
    (pbasename (pdirname row.path)) fl td fs' evs hprim
    (by simp [primResolved, hstor]) hok
  rw [h]
  exact pbasename_pjoin cfg.out_dir _ (pbasename_noslash (pdirname row.path))

/-- C5 witness: the concrete instance of the claim — for legacy path
`/lib/X/Y/f.pdf` the target directory basename is `Y`. -/
theorem C5_legacy_dirname_witness :
    pbasename "/o/Y" = pbasename (pdirname rowLeg.path) :=
  C5_legacy_dirname cfgA ⟨some "2016-05-01", "T"⟩ [rowLeg] fsSrc rowLeg
    ["f.pdf"] "/o/Y" fsSrcRun1 evsSrcRun1 (by decide) (by decide) (by rfl)

/-- C10 witness: a concrete item with a title and no attachments aborts the
run with the name error. -/
theorem C10_empty_files_aborts_witness :
    runStep cfgA itemNoAtt fsStor
        = .error (RErr.gf GFErr.nameErrorDefaultFile) ∧
      runAll cfgA [itemNoAtt] fsStor
        = .error (RErr.gf GFErr.nameErrorDefaultFile) :=
  C10_empty_files_aborts cfgA itemNoAtt fsStor [] "T"
    (by decide) (by decide) (by intro r hr; cases hr)

/-- The test `exP` decides membership in the path set. -/
theorem exP_iff (fs : FS) (x : String) : fs.exP x = true ↔ x ∈ fs.ex := by
  simp [FS.exP]

theorem fsLe_refl (fs : FS) : fsLe fs fs :=
  fun _ h => h

theorem fsLe_add (fs : FS) (q : String) : fsLe fs (fs.add q) := by
  intro x h
  simp only [FS.add, List.mem_append]
  exact Or.inl h

theorem fsLe_trans {a b c : FS} (h1 : fsLe a b) (h2 : fsLe b c) : fsLe a c :=
  fun q hq => h2 q (h1 q hq)

theorem noNewInfo_refl (evs : List Event) : noNewInfo evs evs :=
  fun _ h => h

theorem noNewInfo_trans {a b c : List Event}
    (h1 : noNewInfo a b) (h2 : noNewInfo b c) : noNewInfo a c :=
  fun p hp => h1 p (h2 p hp)

/-- Appending one non-write event adds no metadata write. -/
theorem noNewInfo_snoc (evs : List Event) (e : Event)
    (he : ∀ p, e ≠ Event.writeInfo p) : noNewInfo evs (evs ++ [e]) := by
  intro p hp
  rcases List.mem_append.mp hp with h | h
  · exact h
  · rw [List.mem_singleton] at h
    exact absurd h.symm (he p)

theorem noNewInfo_mk (evs : List Event) (d : String) :
    noNewInfo evs (evs ++ [Event.makedirs d]) :=
  noNewInfo_snoc evs _ (fun _ h => Event.noConfusion h)

theorem noNewInfo_cp (evs : List Event) (s d : String) :
    noNewInfo evs (evs ++ [Event.copy s d]) :=
  noNewInfo_snoc evs _ (fun _ h => Event.noConfusion h)

theorem noNewInfo_del (evs : List Event) :
    noNewInfo evs (evs ++ [Event.deletedNotice]) :=
  noNewInfo_snoc evs _ (fun _ h => Event.noConfusion h)

/-- A primary-loop iteration only grows the filesystem and performs no
metadata write. -/
theorem primRowRest_ext (cfg : Cfg) (key p dn : String) (st : GFSt) :
    loopExt st (primRowRest cfg key p dn st) := by
  simp only [primRowRest]
  repeat' split
  all_goals first
    | exact ⟨fsLe_refl _, noNewInfo_refl _⟩
    | exact ⟨fsLe_add _ _, noNewInfo_mk _ _⟩
    | exact ⟨fsLe_add _ _, noNewInfo_cp _ _ _⟩
    | exact ⟨fsLe_trans (fsLe_add _ _) (fsLe_add _ _),
        noNewInfo_trans (noNewInfo_mk _ _) (noNewInfo_cp _ _ _)⟩

theorem primRow_ext (cfg : Cfg) (it : ItemCtx) (row : AttRow) (st : GFSt) :
    loopExt st (primRow cfg it row st) := by
  unfold primRow
  split
  · exact ⟨fsLe_refl _, noNewInfo_refl _⟩
  · exact primRowRest_ext cfg row.key _ _ st

/-- The relation `loopExt` composes through a continuing state. -/
theorem loopExt_comp {st st' : GFSt} {r : LoopRes}
    (h1 : loopExt st (.cont st')) (h2 : loopExt st' r) : loopExt st r := by
  cases r with
  | deleted fs' evs' => exact ⟨fsLe_trans h1.1 h2.1, noNewInfo_trans h1.2 h2.2⟩
  | err e fs' evs' => exact ⟨fsLe_trans h1.1 h2.1, noNewInfo_trans h1.2 h2.2⟩
  | cont st2 => exact ⟨fsLe_trans h1.1 h2.1, noNewInfo_trans h1.2 h2.2⟩

theorem primLoop_ext (cfg : Cfg) (it : ItemCtx) :
    ∀ (rows : List AttRow) (st : GFSt), loopExt st (primLoop cfg it rows st)
  | [], st => ⟨fsLe_refl _, noNewInfo_refl _⟩
  | row :: rest, st => by
    unfold primLoop
    have h1 := primRow_ext cfg it row st
    rcases hc : primRow cfg it row st with _ | _ | st'
    · rw [hc] at h1; exact h1
    · rw [hc] at h1; exact h1
    · rw [hc] at h1
      exact loopExt_comp h1 (primLoop_ext cfg it rest st')

/-- A secondary-loop iteration only grows the filesystem and performs no
metadata write. -/
theorem secRow_ext (cfg : Cfg) (it : ItemCtx) (hp : Bool) (row : AttRow)
    (st : GFSt) : loopExt st (secRow cfg it hp row st) := by
  simp only [secRow]
  repeat' split
  all_goals first
    | exact ⟨fsLe_refl _, noNewInfo_refl _⟩
    | exact ⟨fsLe_add _ _, noNewInfo_mk _ _⟩
    | exact ⟨fsLe_add _ _, noNewInfo_cp _ _ _⟩
    | exact ⟨fsLe_trans (fsLe_add _ _) (fsLe_add _ _),
        noNewInfo_trans (noNewInfo_mk _ _) (noNewInfo_cp _ _ _)⟩

theorem secLoop_ext (cfg : Cfg) (it : ItemCtx) (hp : Bool) :
    ∀ (rows : List AttRow) (st : GFSt), loopExt st (secLoop cfg it hp rows st)
  | [], st => ⟨fsLe_refl _, noNewInfo_refl _⟩
  | row :: rest, st => by
    unfold secLoop
    have h1 := secRow_ext cfg it hp row st
    rcases hc : secRow cfg it hp row st with _ | _ | st'
    · rw [hc] at h1; exact h1
    · rw [hc] at h1; exact h1
    · rw [hc] at h1
      exact loopExt_comp h1 (secLoop_ext cfg it hp rest st')

/-- The model `getFiles` only grows the filesystem and performs no metadata write. -/
theorem getFiles_ext (cfg : Cfg) (it : ItemCtx) (atts : List AttRow)
    (fs : FS) :
    fsLe fs (getFiles cfg it atts fs).2.1 ∧
    (∀ p, Event.writeInfo p ∉ (getFiles cfg it atts fs).2.2) := by
  simp only [getFiles]
  have h1 := primLoop_ext cfg it (atts.filter (fun r => isIncludedMime r.mime))
    { fs := fs, evs := [], files := [], tgt := none }
  split
  · next heq =>
    rw [heq] at h1
    exact ⟨h1.1, fun p hp => (List.not_mem_nil _ (h1.2 p hp))⟩
  · next heq =>
    rw [heq] at h1
    exact ⟨h1.1, fun p hp => (List.not_mem_nil _ (h1.2 p hp))⟩
  · next st1 heq =>
    rw [heq] at h1
    have h2 := secLoop_ext cfg it
      (!(atts.filter (fun r => isIncludedMime r.mime)).isEmpty) atts st1
    split
    · next heq2 =>
      rw [heq2] at h2
      have h3 := @loopExt_comp ⟨fs, [], [], none⟩ _ _ h1 h2
      exact ⟨h3.1, fun p hp => (List.not_mem_nil _ (h3.2 p hp))⟩
    · next heq2 =>
      rw [heq2] at h2
      have h3 := @loopExt_comp ⟨fs, [], [], none⟩ _ _ h1 h2
      exact ⟨h3.1, fun p hp => (List.not_mem_nil _ (h3.2 p hp))⟩
    · next st2 heq2 =>
      rw [heq2] at h2
      have h3 := @loopExt_comp ⟨fs, [], [], none⟩ _ _ h1 h2
      split
      · exact ⟨h3.1, fun p hp => (List.not_mem_nil _ (h3.2 p hp))⟩
      · split
        · exact ⟨h3.1, fun p hp => (List.not_mem_nil _ (h3.2 p hp))⟩
        · exact ⟨h3.1, fun p hp => (List.not_mem_nil _ (h3.2 p hp))⟩

/-- The Archive Writer preserves freshness: from a grown filesystem and a
write-free log, the written path (if any) was absent initially. -/
theorem archive_ext (fs fsA : FS) (td : String) (evsB : List Event)
    (fs' : FS) (evs : List Event)
    (hle : fsLe fs fsA) (hni : ∀ p, Event.writeInfo p ∈ evsB → False)
    (h : archiveStep fsA td evsB = (fs', evs)) :
    fsLe fs fs' ∧ (∀ p, Event.writeInfo p ∈ evs → fs.exP p = false) := by
  unfold archiveStep at h
  split at h
  · next hcond =>
    injection h with h1 h2
    subst h1; subst h2
    constructor
    · exact fsLe_trans hle (fsLe_add _ _)
    · intro p hp
      rcases List.mem_append.mp hp with hm | hm
      · exact absurd hm (hni p)
      · rw [List.mem_singleton] at hm
        injection hm with hm
        subst hm
        have hq : fsA.exP (pjoin td "info.yaml") = false := by
          simpa using Bool.and_elim_right hcond
        cases hfs : fs.exP (pjoin td "info.yaml")
        · rfl
        · exfalso
          have h3 := (exP_iff _ _).mpr (hle _ ((exP_iff fs _).mp hfs))
          rw [hq] at h3
          cases h3
  · injection h with h1 h2
    subst h1; subst h2
    exact ⟨hle, fun p hp => absurd hp (hni p)⟩

/-- One `run` iteration only grows the filesystem, and any metadata write
it performs targets a path that did not yet exist. -/
theorem runStep_ext (cfg : Cfg) (it : ItemInput) (fs fs' : FS)
    (evs : List Event) (h : runStep cfg it fs = .ok (fs', evs)) :
    fsLe fs fs' ∧ (∀ p, Event.writeInfo p ∈ evs → fs.exP p = false) := by
  simp only [runStep] at h
  split at h
  · exact Except.noConfusion h
  · next ttl hti =>
    have hext := getFiles_ext cfg
      ⟨aget (reduceDate (getFields it.fieldsRaw)) "date", ttl⟩ it.atts fs
    split at h
    · next fs2 evs2 hg =>
      rw [hg] at hext
      injection h with h
      injection h with h1 h2
      subst h1; subst h2
      exact ⟨hext.1, fun p hp =>
        absurd (noNewInfo_del evs2 p hp) (hext.2 p)⟩
    · exact Except.noConfusion h
    · next fl td fs2 evs2 hg =>
      rw [hg] at hext
      injection h with h
      by_cases hm : (!fs2.exP td && fl.any (fun f => fs2.exP (pjoin td f))) = true
      · rw [if_pos hm, if_pos hm] at h
        exact archive_ext fs _ td _ fs' evs
          (fsLe_trans hext.1 (fsLe_add fs2 td))
          (fun p hp => hext.2 p (noNewInfo_mk evs2 td p hp)) h
      · rw [if_neg hm, if_neg hm] at h
        exact archive_ext fs fs2 td evs2 fs' evs hext.1
          (fun p hp => hext.2 p hp) h

/-- The whole run only grows the filesystem, and any metadata write in its
log targets a path absent from the initial filesystem. -/
theorem runAll_ext (cfg : Cfg) :
    ∀ (items : List ItemInput) (fs fs' : FS) (evs : List Event),
      runAll cfg items fs = .ok (fs', evs) →
      fsLe fs fs' ∧ (∀ p, Event.writeInfo p ∈ evs → fs.exP p = false)
  | [], fs, fs', evs, h => by
    injection h with h
    injection h with h1 h2
    subst h1; subst h2
    exact ⟨fsLe_refl fs, fun p hp => absurd hp (List.not_mem_nil _)⟩
  | it :: rest, fs, fs', evs, h => by
    simp only [runAll] at h
    split at h
    · exact Except.noConfusion h
    · next fsm evs1 h1 =>
      split at h
      · exact Except.noConfusion h
      · next fse evs2 h2 =>
        injection h with h
        injection h with ha hb
        subst ha; subst hb
        have hs := runStep_ext cfg it fs fsm evs1 h1
        have hr := runAll_ext cfg rest fsm fse evs2 h2
        refine ⟨fsLe_trans hs.1 hr.1, fun p hp => ?_⟩
        rcases List.mem_append.mp hp with hm | hm
        · exact hs.2 p hm
        · have hmid := hr.2 p hm
          cases hfs : fs.exP p
          · rfl
          · exfalso
            have h4 := (exP_iff _ _).mpr (hs.1 p ((exP_iff fs p).mp hfs))
            rw [hmid] at h4
            cases h4

/-- C1 (amended): the merged record is written to `{target}/info.yaml`
exactly when the target directory exists and that file does not, so an
already existing `info.yaml` (indeed, any pre-existing path) is never the
target of a metadata write on any later run; however, a second run over an
unchanged tree is not write-free in general, because primary attachment
files whose source still exists are copied again (see the
counterexample). -/
theorem C1_amended :
    (∀ (fs : FS) (td : String) (evs : List Event),
      (archiveStep fs td evs).2
          = evs ++ [Event.writeInfo (pjoin td "info.yaml")]
        ↔ fs.exP td = true ∧ fs.exP (pjoin td "info.yaml") = false) ∧
    (∀ (cfg : Cfg) (items : List ItemInput) (fs fs' : FS)
        (evs : List Event) (p : String),
      runAll cfg items fs = .ok (fs', evs) →
      Event.writeInfo p ∈ evs → fs.exP p = false) := by
  constructor
  · intro fs td evs
    constructor
    · intro h
      unfold archiveStep at h
      split at h
      · next hcond =>
        refine ⟨Bool.and_elim_left hcond, ?_⟩
        simpa using Bool.and_elim_right hcond
      · exfalso
        have hl := congrArg List.length h
        simp at hl
    · intro hc
      have hcond : (fs.exP td && !(fs.exP (pjoin td "info.yaml"))) = true := by
        rw [hc.1, hc.2]
        rfl
      unfold archiveStep
      rw [if_pos hcond]
  · intro cfg items fs fs' evs p hrun hp
    exact (runAll_ext cfg items fs fs' evs hrun).2 p hp

/-- C1 witness: on a tree where the target directory exists and holds no
`info.yaml`, the Archive Writer emits exactly one metadata write. -/
theorem C1_amended_witness :
    (archiveStep fsDest "/o/Y" []).2
      = [] ++ [Event.writeInfo (pjoin "/o/Y" "info.yaml")] :=
  (C1_amended.1 fsDest "/o/Y" []).mpr ⟨by decide, by decide⟩

/-- Lines 334-338 as a lemma: with the destination absent, the path
distinct from the destination, and both the source path and its parent
directory missing, a primary-loop iteration signals deletion, leaving the
filesystem and log untouched. -/
theorem primRowRest_deleted (cfg : Cfg) (key p dn : String) (st : GFSt)
    (hdest : st.fs.exP (pjoin (pjoin cfg.out_dir dn) (pbasename p)) = false)
    (hne : p ≠ pjoin (pjoin cfg.out_dir dn) (pbasename p))
    (hnp : st.fs.exP p = false)
    (hnd : st.fs.exP (pdirname p) = false) :
    primRowRest cfg key p dn st = .deleted st.fs st.evs := by
  simp [primRowRest, hdest, hnp, hnd, hne]

/-- C2 (amended): an item whose single whitelisted attachment has a
missing resolved source path and a missing parent directory is aborted as
deleted — provided the destination file is also absent (otherwise the
already-migrated branch of line 325 keeps the filename instead) and the
resolved path differs from the destination.  The caller then skips record
assembly, performs no filesystem effect for the item, emits the deletion
notice, and continues with the remaining items. -/
theorem C2_amended (cfg : Cfg) (it : ItemInput) (fs : FS)
    (rest : List ItemInput) (ttl : String) (row : AttRow) (p dn : String)
    (htitle : aget (reduceDate (getFields it.fieldsRaw)) "title" = some ttl)
    (hprim : it.atts.filter (fun r => isIncludedMime r.mime) = [row])
    (hres : primResolved cfg
      ⟨aget (reduceDate (getFields it.fieldsRaw)) "date", ttl⟩ row
        = some (p, dn))
    (hnp : fs.exP p = false)
    (hnd : fs.exP (pdirname p) = false)
    (hdest : fs.exP (pjoin (pjoin cfg.out_dir dn) (pbasename p)) = false)
    (hne : p ≠ pjoin (pjoin cfg.out_dir dn) (pbasename p)) :
    runStep cfg it fs = .ok (fs, [Event.deletedNotice]) ∧
    runAll cfg (it :: rest) fs
      = (runAll cfg rest fs).map
          (fun q => (q.1, Event.deletedNotice :: q.2)) := by
  have hgf : getFiles cfg
      ⟨aget (reduceDate (getFields it.fieldsRaw)) "date", ttl⟩ it.atts fs
        = (.deleted, fs, []) := by
    unfold getFiles
    rw [hprim]
    simp only [primLoop, primRow, hres]
    rw [primRowRest_deleted cfg row.key p dn _ hdest hne hnp hnd]
  have hstep : runStep cfg it fs = .ok (fs, [Event.deletedNotice]) := by
    unfold runStep
    simp only [htitle, hgf]
    rfl
  refine ⟨hstep, ?_⟩
  simp only [runAll, hstep]
  rcases hrr : runAll cfg rest fs with e | q
  · rfl
  · obtain ⟨f2, e2⟩ := q
    rfl

/-- C2 witness: the legacy attachment `/lib/X/Y/f.pdf` over a tree holding
only the output root is reported deleted, skipped without any filesystem
effect, and the run continues. -/
theorem C2_amended_witness :
    runStep cfgA itemLeg fsEmpty = .ok (fsEmpty, [Event.deletedNotice]) ∧
    runAll cfgA [itemLeg] fsEmpty
      = (runAll cfgA [] fsEmpty).map
          (fun q => (q.1, Event.deletedNotice :: q.2)) :=
  C2_amended cfgA itemLeg fsEmpty [] "T" rowLeg "/lib/X/Y/f.pdf" "Y"
    (by decide) (by decide) (by decide) (by decide) (by decide) (by decide)
    (by decide)

/-- Lines 334-339 as a lemma: with the destination absent and the source
path missing but its parent directory present, a primary-loop iteration
keeps the appended filename and continues without filesystem effect. -/
theorem primRowRest_skip (cfg : Cfg) (key p dn : String) (st : GFSt)
    (hdest : st.fs.exP (pjoin (pjoin cfg.out_dir dn) (pbasename p)) = false)
    (hne : p ≠ pjoin (pjoin cfg.out_dir dn) (pbasename p))
    (hnp : st.fs.exP p = false)
    (hd : st.fs.exP (pdirname p) = true) :
    primRowRest cfg key p dn st
      = .cont { st with
                files := st.files ++ [pbasename p]
                tgt := some (pjoin cfg.out_dir dn) } := by
  simp [primRowRest, hdest, hne, hnp, hd]

/-- Lines 340-343 as a lemma: with the destination absent, the source path
present and the target directory absent, a primary-loop iteration creates
the directory and copies from the plain source path. -/
theorem primRowRest_copy (cfg : Cfg) (key p dn : String) (st : GFSt)
    (hdest : st.fs.exP (pjoin (pjoin cfg.out_dir dn) (pbasename p)) = false)
    (hne : p ≠ pjoin (pjoin cfg.out_dir dn) (pbasename p))
    (hp : st.fs.exP p = true)
    (htd : st.fs.exP (pjoin cfg.out_dir dn) = false)
    (hfail : st.fs.copyFail p
      (pjoin (pjoin cfg.out_dir dn) (pbasename p)) = false) :
    primRowRest cfg key p dn st
      = .cont { fs := (st.fs.add (pjoin cfg.out_dir dn)).add
                        (pjoin (pjoin cfg.out_dir dn) (pbasename p))
                evs := st.evs ++ [.makedirs (pjoin cfg.out_dir dn)]
                         ++ [.copy p (pjoin (pjoin cfg.out_dir dn) (pbasename p))]
                files := st.files ++ [pbasename p]
                tgt := some (pjoin cfg.out_dir dn) } := by
  simp [primRowRest, FS.add, hdest, hne, hp, htd, hfail]

/-- The model `getFiles` over a single whitelisted legacy attachment reduces to the
epilogue applied to the continuation state of the primary-loop iteration. -/
theorem getFiles_single_legacy (cfg : Cfg) (it : ItemCtx) (row : AttRow)
    (fs : FS) (st1 : GFSt)
    (hmime : isIncludedMime row.mime = true)
    (hstor : storagePref row.path = false)
    (hcont : primRowRest cfg row.key row.path (pbasename (pdirname row.path))
      { fs := fs, evs := [], files := [], tgt := none } = .cont st1) :
    getFiles cfg it [row] fs
      = (if st1.files.isEmpty
          then (GFRes.err .nameErrorDefaultFile, st1.fs, st1.evs)
          else
            match st1.tgt with
            | some td => (GFRes.ok st1.files td, st1.fs, st1.evs)
            | none => (GFRes.err .targetUnbound, st1.fs, st1.evs)) := by
  unfold getFiles
  have hfilter : List.filter (fun r => isIncludedMime r.mime) [row] = [row] := by
    simp [hmime]
  rw [hfilter]
  simp only [primLoop, primRow, primResolved, hstor, Bool.false_eq_true,
    if_false, hcont, List.isEmpty_cons, Bool.not_false]
  rw [secLoop_skips cfg it true [row] st1
    (by intro r hr; rw [List.mem_singleton] at hr; subst hr; exact hstor)]

/-- C3 (amended): an attachment whose source file is missing (parent
directory present), or whose copy raises a caught I/O error, is NOT
omitted: its name is appended to the files list before the existence and
copy checks, so the name is retained in the merged record; processing does
continue with record assembly (a normal `ok` result).  Part one covers a
missing primary legacy attachment, part two a secondary stored attachment
whose copy fails. -/
theorem C3_amended :
    (∀ (cfg : Cfg) (it : ItemCtx) (fs : FS) (row : AttRow),
      isIncludedMime row.mime = true →
      storagePref row.path = false →
      fs.exP row.path = false →
      fs.exP (pdirname row.path) = true →
      fs.exP (pjoin (pjoin cfg.out_dir (pbasename (pdirname row.path)))
        (pbasename row.path)) = false →
      row.path ≠ pjoin (pjoin cfg.out_dir (pbasename (pdirname row.path)))
        (pbasename row.path) →
      getFiles cfg it [row] fs
        = (.ok [pbasename row.path]
            (pjoin cfg.out_dir (pbasename (pdirname row.path))), fs, [])) ∧
    (∀ (cfg : Cfg) (it : ItemCtx) (fs : FS) (row : AttRow) (y : Nat),
      isIncludedMime row.mime = false →
      storagePref row.path = true →
      yearOf cfg.dp it.date = some y →
      fs.exP (pjoin cfg.out_dir (toString y ++ "_" ++ it.title)) = false →
      (fs.add (pjoin cfg.out_dir (toString y ++ "_" ++ it.title))).exP
        (pjoin (pjoin cfg.out_dir (toString y ++ "_" ++ it.title))
          (strDropN row.path 8)) = false →
      (fs.add (pjoin cfg.out_dir (toString y ++ "_" ++ it.title))).exP
        (storPath cfg row.key (strDropN row.path 8)) = true →
      (fs.add (pjoin cfg.out_dir (toString y ++ "_" ++ it.title))).exP
        (pdirname (pjoin (pjoin cfg.out_dir (toString y ++ "_" ++ it.title))
          (strDropN row.path 8))) = true →
      (fs.add (pjoin cfg.out_dir (toString y ++ "_" ++ it.title))).copyFail
        (storPath cfg row.key (strDropN row.path 8))
        (pjoin (pjoin cfg.out_dir (toString y ++ "_" ++ it.title))
          (strDropN row.path 8)) = true →
      getFiles cfg it [row] fs
        = (.ok [strDropN row.path 8]
            (pjoin cfg.out_dir (toString y ++ "_" ++ it.title)),
          fs.add (pjoin cfg.out_dir (toString y ++ "_" ++ it.title)),
          [.makedirs (pjoin cfg.out_dir (toString y ++ "_" ++ it.title))])) := by
  constructor
  · intro cfg it fs row hmime hstor hnp hd hdest hne
    have hcont := primRowRest_skip cfg row.key row.path
      (pbasename (pdirname row.path)) ⟨fs, [], [], none⟩ hdest hne hnp hd
    rw [getFiles_single_legacy cfg it row fs _ hmime hstor hcont]
    rfl
  · intro cfg it fs row y hmime hstor hy hmk hdest horig hdird hfail
    unfold getFiles
    have hfilter : List.filter (fun r => isIncludedMime r.mime) [row] = [] := by
      simp [hmime]
    rw [hfilter]
    simp only [primLoop, List.isEmpty_nil, Bool.not_true, secLoop, secRow,
      hstor, Bool.not_true, Bool.false_eq_true, if_false, hy, hmk,
      Bool.not_false, if_true, hdest, horig, hdird, hfail]
    rfl

/-- C3 witness: a concrete secondary stored attachment whose copy fails is
still listed in the files result while the run continues normally. -/
theorem C3_amended_witness :
    getFiles ⟨"/z", "/o", fun s => if s = "2016" then some 2016 else none⟩
        ⟨some "2016", "T2"⟩ [⟨"K9", "storage:supp.dat", "text/plain"⟩]
        ⟨["/z/storage/K9/supp.dat", "/o"], fun _ _ => true⟩
      = (.ok [strDropN "storage:supp.dat" 8]
          (pjoin "/o" (toString 2016 ++ "_" ++ "T2")),
        FS.add ⟨["/z/storage/K9/supp.dat", "/o"], fun _ _ => true⟩
          (pjoin "/o" (toString 2016 ++ "_" ++ "T2")),
        [.makedirs (pjoin "/o" (toString 2016 ++ "_" ++ "T2"))]) :=
  C3_amended.2 ⟨"/z", "/o", fun s => if s = "2016" then some 2016 else none⟩
    ⟨some "2016", "T2"⟩ ⟨["/z/storage/K9/supp.dat", "/o"], fun _ _ => true⟩
    ⟨"K9", "storage:supp.dat", "text/plain"⟩ 2016
    (by decide) (by decide) (by decide) (by decide) (by decide) (by decide)
    (by decide) (by decide)

/-- C8 (amended): for a legacy-scheme primary attachment, both the
existence check and the copy use the plain path of the attachment, while the
storage-root location `{source_root}/storage/{key}/{basename(path)}` is
consulted only by the already-migrated test of line 325.  Part one: when
the plain path exists, the file is copied from the plain path (even with
the storage-root location absent, as the witness instantiates).  Part two:
when the plain path is missing but its directory exists, no copy happens
even though the storage-root location does exist. -/
theorem C8_amended :
    (∀ (cfg : Cfg) (it : ItemCtx) (fs : FS) (row : AttRow),
      isIncludedMime row.mime = true →
      storagePref row.path = false →
      fs.exP row.path = true →
      fs.exP (pjoin cfg.out_dir (pbasename (pdirname row.path))) = false →
      fs.exP (pjoin (pjoin cfg.out_dir (pbasename (pdirname row.path)))
        (pbasename row.path)) = false →
      row.path ≠ pjoin (pjoin cfg.out_dir (pbasename (pdirname row.path)))
        (pbasename row.path) →
      fs.copyFail row.path
        (pjoin (pjoin cfg.out_dir (pbasename (pdirname row.path)))
          (pbasename row.path)) = false →
      getFiles cfg it [row] fs
        = (.ok [pbasename row.path]
            (pjoin cfg.out_dir (pbasename (pdirname row.path))),
          (fs.add (pjoin cfg.out_dir (pbasename (pdirname row.path)))).add
            (pjoin (pjoin cfg.out_dir (pbasename (pdirname row.path)))
              (pbasename row.path)),
          [.makedirs (pjoin cfg.out_dir (pbasename (pdirname row.path))),
           .copy row.path
             (pjoin (pjoin cfg.out_dir (pbasename (pdirname row.path)))
               (pbasename row.path))])) ∧
    (∀ (cfg : Cfg) (it : ItemCtx) (fs : FS) (row : AttRow),
      isIncludedMime row.mime = true →
      storagePref row.path = false →
      fs.exP row.path = false →
      fs.exP (pdirname row.path) = true →
      fs.exP (storPath cfg row.key (pbasename row.path)) = true →
      fs.exP (pjoin (pjoin cfg.out_dir (pbasename (pdirname row.path)))
        (pbasename row.path)) = false →
      row.path ≠ pjoin (pjoin cfg.out_dir (pbasename (pdirname row.path)))
        (pbasename row.path) →
      getFiles cfg it [row] fs
        = (.ok [pbasename row.path]
            (pjoin cfg.out_dir (pbasename (pdirname row.path))), fs, [])) := by
  constructor
  · intro cfg it fs row hmime hstor hp htd hdest hne hfail
    have hcont := primRowRest_copy cfg row.key row.path
      (pbasename (pdirname row.path)) ⟨fs, [], [], none⟩ hdest hne hp htd hfail
    rw [getFiles_single_legacy cfg it row fs _ hmime hstor hcont]
    rfl
  · intro cfg it fs row hmime hstor hnp hd horig hdest hne
    have hcont := primRowRest_skip cfg row.key row.path
      (pbasename (pdirname row.path)) ⟨fs, [], [], none⟩ hdest hne hnp hd
    rw [getFiles_single_legacy cfg it row fs _ hmime hstor hcont]
    rfl

/-- C8 witness: with legacy source `/lib/X/Y/f.pdf` present and nothing at
`/z/storage/K2/f.pdf`, the file is copied from the plain path; and with
the plain path missing but `/z/storage/K2/f.pdf` present, nothing is
copied. -/
theorem C8_amended_witness :
    getFiles cfgA ⟨some "2016-05-01", "T"⟩ [rowLeg] fsSrc
        = (.ok [pbasename rowLeg.path]
            (pjoin cfgA.out_dir (pbasename (pdirname rowLeg.path))),
          (fsSrc.add (pjoin cfgA.out_dir (pbasename (pdirname rowLeg.path)))).add
            (pjoin (pjoin cfgA.out_dir (pbasename (pdirname rowLeg.path)))
              (pbasename rowLeg.path)),
          [.makedirs (pjoin cfgA.out_dir (pbasename (pdirname rowLeg.path))),
           .copy rowLeg.path
             (pjoin (pjoin cfgA.out_dir (pbasename (pdirname rowLeg.path)))
               (pbasename rowLeg.path))]) ∧
    getFiles cfgA ⟨some "2016-05-01", "T"⟩ [rowLeg]
        ⟨["/lib", "/lib/X", "/lib/X/Y", "/z/storage/K2/f.pdf"], noFail⟩
      = (.ok [pbasename rowLeg.path]
          (pjoin cfgA.out_dir (pbasename (pdirname rowLeg.path))),
        ⟨["/lib", "/lib/X", "/lib/X/Y", "/z/storage/K2/f.pdf"], noFail⟩,
        []) :=
  ⟨C8_amended.1 cfgA ⟨some "2016-05-01", "T"⟩ fsSrc rowLeg
      (by decide) (by decide) (by decide) (by decide) (by decide) (by decide)
      (by decide),
    C8_amended.2 cfgA ⟨some "2016-05-01", "T"⟩
      ⟨["/lib", "/lib/X", "/lib/X/Y", "/z/storage/K2/f.pdf"], noFail⟩ rowLeg
      (by decide) (by decide) (by decide) (by decide) (by decide) (by decide)
      (by decide)⟩

/-- Association-list update then lookup at the same key. -/
theorem aget_aset_self {α : Type} :
    ∀ (d : List (String × α)) (k : String) (v : α),
      aget (aset d k v) k = some v
  | [], k, v => by simp [aget, aset]
  | (k1, w) :: rest, k, v => by
    by_cases h : k1 = k
    · simp [aget, aset, h]
    · simp only [aset, if_neg h, aget, if_neg h]
      exact aget_aset_self rest k v

/-- Association-list update then lookup at a different key. -/
theorem aget_aset_ne {α : Type} :
    ∀ (d : List (String × α)) (k k' : String) (v : α), k' ≠ k →
      aget (aset d k v) k' = aget d k'
  | [], k, k', v, h => by simp [aget, aset, Ne.symm h]
  | (k1, w) :: rest, k, k', v, h => by
    by_cases h1 : k1 = k
    · subst h1
      simp [aget, aset, Ne.symm h]
    · simp only [aset, if_neg h1, aget]
      by_cases h2 : k1 = k'
      · simp [h2]
      · simp only [if_neg h2]
        exact aget_aset_ne rest k k' v h

/-- Strings are injective in their character lists. -/
theorem strExt {a b : String} (h : a.toList = b.toList) : a = b := by
  have h2 := congrArg String.mk h
  simpa using h2

/-- No string equals itself with `"_list"` appended. -/
theorem str_ne_append_list (s : String) : s ≠ s ++ "_list" := by
  intro h
  have h2 := congrArg (fun x => x.toList.length) h
  simp only [toList_append, List.length_append] at h2
  simp at h2

/-- Appending the same string on the right is injective. -/
theorem str_append_cancel {a b : String} (s : String)
    (h : a ++ s = b ++ s) : a = b := by
  have h2 : a.toList ++ s.toList = b.toList ++ s.toList := by
    rw [← toList_append, ← toList_append, h]
  exact strExt (List.append_inj' h2 rfl).1

/-- The display form of a creator is never the empty string. -/
theorem fmtCreator_toList_ne (x : CRow) : (fmtCreator x).toList ≠ [] := by
  intro h
  simp only [fmtCreator, toList_append, List.append_eq_nil] at h
  have h2 := h.1.2
  simp at h2

/-- The empty string has an empty character list. -/
theorem emptyToList : ("" : String).toList = [] := rfl

/-- The function `joinAnd` of a list with a nonempty head is nonempty. -/
theorem joinAnd_cons_ne (a : String) (rest : List String)
    (ha : a.toList ≠ []) : joinAnd (a :: rest) ≠ "" := by
  cases rest with
  | nil =>
    intro h
    exact ha (congrArg String.toList h)
  | cons b t =>
    intro h
    have h2 := congrArg String.toList h
    simp only [joinAnd, toList_append, emptyToList, List.append_eq_nil] at h2
    exact ha h2.1.1

/-- A joined role string is nonempty whenever the role occurs. -/
theorem roleJoined_ne_empty (rows : List CRow) (r : String)
    (h : roleRows rows r ≠ []) : roleJoined rows r ≠ "" := by
  unfold roleJoined
  rcases hr : roleRows rows r with _ | ⟨x, rest⟩
  · exact absurd hr h
  · rw [List.map_cons]
    exact joinAnd_cons_ne _ _ (fmtCreator_toList_ne x)

/-- The function `joinAnd` over a snoc: append stays right of an `" and "` separator. -/
theorem joinAnd_snoc :
    ∀ (l : List String) (x : String),
      joinAnd (l ++ [x]) = if l = [] then x else joinAnd l ++ " and " ++ x
  | [], x => rfl
  | [a], x => by simp [joinAnd]
  | a :: b :: t, x => by
    have ih := joinAnd_snoc (b :: t) x
    rw [if_neg (by simp : ¬((b :: t : List String) = []))] at ih
    rw [if_neg (by simp : ¬((a :: b :: t : List String) = []))]
    calc joinAnd ((a :: b :: t) ++ [x])
        = a ++ " and " ++ joinAnd ((b :: t) ++ [x]) := rfl
      _ = a ++ " and " ++ (joinAnd (b :: t) ++ " and " ++ x) := by rw [ih]
      _ = joinAnd (a :: b :: t) ++ " and " ++ x := by
          show _ = a ++ " and " ++ joinAnd (b :: t) ++ " and " ++ x
          simp [String.append_assoc]

/-- The function `roleRows` over a snoc. -/
theorem roleRows_snoc (rows : List CRow) (row : CRow) (r : String) :
    roleRows (rows ++ [row]) r
      = roleRows rows r ++ (if row.role = r then [row] else []) := by
  unfold roleRows
  rw [List.filter_append]
  by_cases h : row.role = r
  · simp [h]
  · simp [List.filter_cons, h]

/-- A role absent from the rows has no `roleRows`. -/
theorem roleRows_eq_nil (rows : List CRow) (r : String)
    (h : ¬ ∃ x ∈ rows, x.role = r) : roleRows rows r = [] := by
  unfold roleRows
  rw [List.filter_eq_nil_iff]
  intro a ha
  simp only [beq_iff_eq]
  exact fun he => h ⟨a, ha, he⟩

/-- A role present in the rows has nonempty `roleRows`. -/
theorem roleRows_ne_nil (rows : List CRow) (r : String)
    (h : ∃ x ∈ rows, x.role = r) : roleRows rows r ≠ [] := by
  obtain ⟨x, hx, he⟩ := h
  unfold roleRows
  intro hn
  rw [List.filter_eq_nil_iff] at hn
  exact hn x hx (by simp [he])

/-- An absent role has an empty `roleList`. -/
theorem roleList_eq_nil (rows : List CRow) (r : String)
    (h : ¬ ∃ x ∈ rows, x.role = r) : roleList rows r = [] := by
  unfold roleList
  rw [roleRows_eq_nil rows r h]
  rfl

/-- Appending a row extends the joined string of its own role after a
separator. -/
theorem roleJoined_snoc_self (rows : List CRow) (row : CRow)
    (h : roleRows rows row.role ≠ []) :
    roleJoined (rows ++ [row]) row.role
      = roleJoined rows row.role ++ " and " ++ row.surname ++ ", "
        ++ row.given := by
  unfold roleJoined
  rw [roleRows_snoc rows row row.role, if_pos rfl, List.map_append]
  simp only [List.map_cons, List.map_nil]
  rw [joinAnd_snoc,
    if_neg (by simpa using h : ¬((roleRows rows row.role).map fmtCreator = []))]
  simp [fmtCreator, String.append_assoc]

/-- Appending a row of a fresh role starts its joined string. -/
theorem roleJoined_snoc_new (rows : List CRow) (row : CRow)
    (h : roleRows rows row.role = []) :
    roleJoined (rows ++ [row]) row.role
      = "" ++ row.surname ++ ", " ++ row.given := by
  unfold roleJoined
  rw [roleRows_snoc rows row row.role, if_pos rfl, h]
  simp only [List.nil_append, List.map_cons, List.map_nil, joinAnd]
  apply strExt
  simp [fmtCreator, toList_append, emptyToList]

/-- Appending a row extends the pair list of its own role. -/
theorem roleList_snoc_self (rows : List CRow) (row : CRow) :
    roleList (rows ++ [row]) row.role
      = roleList rows row.role ++ [(row.given, row.surname)] := by
  unfold roleList
  rw [roleRows_snoc rows row row.role, if_pos rfl, List.map_append]
  rfl

/-- Appending a row leaves the joined strings of other roles unchanged. -/
theorem roleJoined_snoc_other (rows : List CRow) (row : CRow) (r : String)
    (h : row.role ≠ r) : roleJoined (rows ++ [row]) r = roleJoined rows r := by
  unfold roleJoined
  rw [roleRows_snoc rows row r, if_neg h, List.append_nil]

/-- Appending a row leaves the pair lists of other roles unchanged. -/
theorem roleList_snoc_other (rows : List CRow) (row : CRow) (r : String)
    (h : row.role ≠ r) : roleList (rows ++ [row]) r = roleList rows r := by
  unfold roleList
  rw [roleRows_snoc rows row r, if_neg h, List.append_nil]

/-- The step `creatorsStep` when the role of the row already has entries. -/
theorem creatorsStep_pos (d : List (String × DVal)) (row : CRow)
    (j : String) (l0 : List (String × String))
    (hj : aget d row.role = some (DVal.s j)) (hjne : j ≠ "")
    (hl : aget (aset d row.role
        (DVal.s (j ++ " and " ++ row.surname ++ ", " ++ row.given)))
      (row.role ++ "_list") = some (DVal.l l0)) :
    creatorsStep d row
      = some (aset (aset d row.role
          (DVal.s (j ++ " and " ++ row.surname ++ ", " ++ row.given)))
        (row.role ++ "_list")
        (DVal.l (l0 ++ [(row.given, row.surname)]))) := by
  simp only [creatorsStep, hj, if_pos hjne, hl]

/-- The step `creatorsStep` when the role of the row is fresh. -/
theorem creatorsStep_neg (d : List (String × DVal)) (row : CRow)
    (hj : aget d row.role = none)
    (hl : aget (aset d row.role
        (DVal.s ("" ++ row.surname ++ ", " ++ row.given)))
      (row.role ++ "_list") = none) :
    creatorsStep d row
      = some (aset (aset d row.role
          (DVal.s ("" ++ row.surname ++ ", " ++ row.given)))
        (row.role ++ "_list")
        (DVal.l [(row.given, row.surname)])) := by
  simp only [creatorsStep, hj]
  rw [if_neg (fun hn => hn rfl)]
  rw [hl]
  rfl

/-- Invariant of the `getCreators` fold: provided no role name is another
role name with `"_list"` appended, the dictionary maps every seen role to
its joined string, and the `"_list"` key of the role to its ordered pair list. -/
theorem creatorsFold_inv :
    ∀ (rest seen : List CRow) (d : List (String × DVal)),
      (∀ a ∈ seen ++ rest, ∀ b ∈ seen ++ rest, a.role ≠ b.role ++ "_list") →
      (∀ r, (∃ x ∈ seen, x.role = r) →
        aget d r = some (DVal.s (roleJoined seen r)) ∧
        aget d (r ++ "_list") = some (DVal.l (roleList seen r))) →
      (∀ k, (¬ ∃ x ∈ seen, x.role = k) →
        (¬ ∃ x ∈ seen, x.role ++ "_list" = k) →
        aget d k = none) →
      ∃ d', creatorsFold rest d = some d' ∧
        ∀ r, (∃ x ∈ seen ++ rest, x.role = r) →
          aget d' r = some (DVal.s (roleJoined (seen ++ rest) r)) ∧
          aget d' (r ++ "_list") = some (DVal.l (roleList (seen ++ rest) r))
  | [], seen, d, hnc, inv1, inv2 => by
    refine ⟨d, rfl, ?_⟩
    simpa using inv1
  | row :: rest', seen, d, hnc, inv1, inv2 => by
    have hrow : row ∈ seen ++ row :: rest' :=
      List.mem_append.mpr (Or.inr (List.mem_cons_self _ _))
    have hseen : ∀ x ∈ seen, x ∈ seen ++ row :: rest' :=
      fun x hx => List.mem_append.mpr (Or.inl hx)
    have hne0 : (row.role ++ "_list") ≠ row.role :=
      Ne.symm (str_ne_append_list row.role)
    -- no seen role is the row role with the list suffix, and conversely
    have hnoseenlist : ∀ x ∈ seen, x.role ≠ row.role ++ "_list" :=
      fun x hx => hnc x (hseen x hx) row hrow
    have hnorowlist : ∀ x ∈ seen, row.role ≠ x.role ++ "_list" :=
      fun x hx => hnc row hrow x (hseen x hx)
    by_cases hx : ∃ x ∈ seen, x.role = row.role
    · -- the role of the row is already present
      have hjne : roleJoined seen row.role ≠ "" :=
        roleJoined_ne_empty seen row.role (roleRows_ne_nil seen row.role hx)
      have hget1 : aget d row.role = some (DVal.s (roleJoined seen row.role)) :=
        (inv1 _ hx).1
      have hgetL : aget (aset d row.role
          (DVal.s (roleJoined seen row.role ++ " and " ++ row.surname ++ ", "
            ++ row.given)))
          (row.role ++ "_list") = some (DVal.l (roleList seen row.role)) := by
        rw [aget_aset_ne d row.role (row.role ++ "_list") _ hne0]
        exact (inv1 _ hx).2
      have hstep := creatorsStep_pos d row (roleJoined seen row.role)
        (roleList seen row.role) hget1 hjne hgetL
      have inv1' : ∀ r, (∃ x ∈ seen ++ [row], x.role = r) →
          aget (aset (aset d row.role
              (DVal.s (roleJoined seen row.role ++ " and " ++ row.surname
                ++ ", " ++ row.given)))
            (row.role ++ "_list")
            (DVal.l (roleList seen row.role ++ [(row.given, row.surname)]))) r
            = some (DVal.s (roleJoined (seen ++ [row]) r)) ∧
          aget (aset (aset d row.role
              (DVal.s (roleJoined seen row.role ++ " and " ++ row.surname
                ++ ", " ++ row.given)))
            (row.role ++ "_list")
            (DVal.l (roleList seen row.role ++ [(row.given, row.surname)])))
            (r ++ "_list")
            = some (DVal.l (roleList (seen ++ [row]) r)) := by
        intro r hr
        by_cases hr0 : r = row.role
        · subst hr0
          constructor
          · rw [aget_aset_ne _ _ _ _ (str_ne_append_list row.role),
              aget_aset_self,
              roleJoined_snoc_self seen row (roleRows_ne_nil seen row.role hx)]
          · rw [aget_aset_self, roleList_snoc_self seen row]
        · have hrseen : ∃ x ∈ seen, x.role = r := by
            rcases hr with ⟨x, hmem, hre⟩
            rcases List.mem_append.mp hmem with hmem1 | hmem1
            · exact ⟨x, hmem1, hre⟩
            · rw [List.mem_singleton] at hmem1
              subst hmem1
              exact absurd hre.symm hr0
          obtain ⟨x0, hx0, hx0r⟩ := hrseen
          have k1 : r ≠ row.role ++ "_list" :=
            hx0r ▸ hnoseenlist x0 hx0
          have k3 : r ++ "_list" ≠ row.role ++ "_list" :=
            fun he => hr0 (str_append_cancel "_list" he)
          have k4 : r ++ "_list" ≠ row.role := by
            have h5 := hnorowlist x0 hx0
            rw [hx0r] at h5
            exact Ne.symm h5
          constructor
          · rw [aget_aset_ne _ _ _ _ k1, aget_aset_ne _ _ _ _ hr0,
              (inv1 r ⟨x0, hx0, hx0r⟩).1,
              roleJoined_snoc_other seen row r (fun he => hr0 he.symm)]
          · rw [aget_aset_ne _ _ _ _ k3, aget_aset_ne _ _ _ _ k4,
              (inv1 r ⟨x0, hx0, hx0r⟩).2,
              roleList_snoc_other seen row r (fun he => hr0 he.symm)]
      have inv2' : ∀ k, (¬ ∃ x ∈ seen ++ [row], x.role = k) →
          (¬ ∃ x ∈ seen ++ [row], x.role ++ "_list" = k) →
          aget (aset (aset d row.role
              (DVal.s (roleJoined seen row.role ++ " and " ++ row.surname
                ++ ", " ++ row.given)))
            (row.role ++ "_list")
            (DVal.l (roleList seen row.role ++ [(row.given, row.surname)]))) k
            = none := by
        intro k hk1 hk2
        have hrowmem : row ∈ seen ++ [row] :=
          List.mem_append.mpr (Or.inr (List.mem_singleton.mpr rfl))
        have kne1 : k ≠ row.role ++ "_list" :=
          fun he => hk2 ⟨row, hrowmem, he.symm⟩
        have kne2 : k ≠ row.role :=
          fun he => hk1 ⟨row, hrowmem, he.symm⟩
        rw [aget_aset_ne _ _ _ _ kne1, aget_aset_ne _ _ _ _ kne2]
        apply inv2 k
        · intro hcon
          obtain ⟨x, hxm, hxe⟩ := hcon
          exact hk1 ⟨x, List.mem_append.mpr (Or.inl hxm), hxe⟩
        · intro hcon
          obtain ⟨x, hxm, hxe⟩ := hcon
          exact hk2 ⟨x, List.mem_append.mpr (Or.inl hxm), hxe⟩
      have hnc' : ∀ a ∈ (seen ++ [row]) ++ rest',
          ∀ b ∈ (seen ++ [row]) ++ rest', a.role ≠ b.role ++ "_list" := by
        intro a ha b hb
        simp only [List.append_assoc, List.singleton_append] at ha hb
        exact hnc a ha b hb
      obtain ⟨d', hfold, hres⟩ :=
        creatorsFold_inv rest' (seen ++ [row]) _ hnc' inv1' inv2'
      refine ⟨d', ?_, ?_⟩
      · show creatorsFold (row :: rest') d = some d'
        unfold creatorsFold
        rw [hstep]
        exact hfold
      · intro r hr
        have hr2 : ∃ x ∈ (seen ++ [row]) ++ rest', x.role = r := by
          simpa [List.append_assoc] using hr
        have hres2 := hres r hr2
        simpa [List.append_assoc] using hres2
    · -- the role of the row is fresh
      have hget1 : aget d row.role = none := by
        apply inv2 row.role hx
        intro hcon
        obtain ⟨x, hxm, hxe⟩ := hcon
        exact hnorowlist x hxm hxe.symm
      have hgetL : aget (aset d row.role
          (DVal.s ("" ++ row.surname ++ ", " ++ row.given)))
          (row.role ++ "_list") = none := by
        rw [aget_aset_ne d row.role (row.role ++ "_list") _ hne0]
        apply inv2 (row.role ++ "_list")
        · intro hcon
          obtain ⟨x, hxm, hxe⟩ := hcon
          exact hnoseenlist x hxm hxe
        · intro hcon
          obtain ⟨x, hxm, hxe⟩ := hcon
          exact hx ⟨x, hxm, str_append_cancel "_list" hxe⟩
      have hstep := creatorsStep_neg d row hget1 hgetL
      have inv1' : ∀ r, (∃ x ∈ seen ++ [row], x.role = r) →
          aget (aset (aset d row.role
              (DVal.s ("" ++ row.surname ++ ", " ++ row.given)))
            (row.role ++ "_list") (DVal.l [(row.given, row.surname)])) r
            = some (DVal.s (roleJoined (seen ++ [row]) r)) ∧
          aget (aset (aset d row.role
              (DVal.s ("" ++ row.surname ++ ", " ++ row.given)))
            (row.role ++ "_list") (DVal.l [(row.given, row.surname)]))
            (r ++ "_list")
            = some (DVal.l (roleList (seen ++ [row]) r)) := by
        intro r hr
        by_cases hr0 : r = row.role
        · subst hr0
          constructor
          · rw [aget_aset_ne _ _ _ _ (str_ne_append_list row.role),
              aget_aset_self,
              roleJoined_snoc_new seen row (roleRows_eq_nil seen row.role hx)]
          · rw [aget_aset_self, roleList_snoc_self seen row,
              roleList_eq_nil seen row.role hx]
            rfl
        · have hrseen : ∃ x ∈ seen, x.role = r := by
            rcases hr with ⟨x, hmem, hre⟩
            rcases List.mem_append.mp hmem with hmem1 | hmem1
            · exact ⟨x, hmem1, hre⟩
            · rw [List.mem_singleton] at hmem1
              subst hmem1
              exact absurd hre.symm hr0
          obtain ⟨x0, hx0, hx0r⟩ := hrseen
          have k1 : r ≠ row.role ++ "_list" :=
            hx0r ▸ hnoseenlist x0 hx0
          have k3 : r ++ "_list" ≠ row.role ++ "_list" :=
            fun he => hr0 (str_append_cancel "_list" he)
          have k4 : r ++ "_list" ≠ row.role := by
            have h5 := hnorowlist x0 hx0
            rw [hx0r] at h5
            exact Ne.symm h5
          constructor
          · rw [aget_aset_ne _ _ _ _ k1, aget_aset_ne _ _ _ _ hr0,
              (inv1 r ⟨x0, hx0, hx0r⟩).1,
              roleJoined_snoc_other seen row r (fun he => hr0 he.symm)]
          · rw [aget_aset_ne _ _ _ _ k3, aget_aset_ne _ _ _ _ k4,
              (inv1 r ⟨x0, hx0, hx0r⟩).2,
              roleList_snoc_other seen row r (fun he => hr0 he.symm)]
      have inv2' : ∀ k, (¬ ∃ x ∈ seen ++ [row], x.role = k) →
          (¬ ∃ x ∈ seen ++ [row], x.role ++ "_list" = k) →
          aget (aset (aset d row.role
              (DVal.s ("" ++ row.surname ++ ", " ++ row.given)))
            (row.role ++ "_list") (DVal.l [(row.given, row.surname)])) k
            = none := by
        intro k hk1 hk2
        have hrowmem : row ∈ seen ++ [row] :=
          List.mem_append.mpr (Or.inr (List.mem_singleton.mpr rfl))
        have kne1 : k ≠ row.role ++ "_list" :=
          fun he => hk2 ⟨row, hrowmem, he.symm⟩
        have kne2 : k ≠ row.role :=
          fun he => hk1 ⟨row, hrowmem, he.symm⟩
        rw [aget_aset_ne _ _ _ _ kne1, aget_aset_ne _ _ _ _ kne2]
        apply inv2 k
        · intro hcon
          obtain ⟨x, hxm, hxe⟩ := hcon
          exact hk1 ⟨x, List.mem_append.mpr (Or.inl hxm), hxe⟩
        · intro hcon
          obtain ⟨x, hxm, hxe⟩ := hcon
          exact hk2 ⟨x, List.mem_append.mpr (Or.inl hxm), hxe⟩
      have hnc' : ∀ a ∈ (seen ++ [row]) ++ rest',
          ∀ b ∈ (seen ++ [row]) ++ rest', a.role ≠ b.role ++ "_list" := by
        intro a ha b hb
        simp only [List.append_assoc, List.singleton_append] at ha hb
        exact hnc a ha b hb
      obtain ⟨d', hfold, hres⟩ :=
        creatorsFold_inv rest' (seen ++ [row]) _ hnc' inv1' inv2'
      refine ⟨d', ?_, ?_⟩
      · show creatorsFold (row :: rest') d = some d'
        unfold creatorsFold
        rw [hstep]
        exact hfold
      · intro r hr
        have hr2 : ∃ x ∈ (seen ++ [row]) ++ rest', x.role = r := by
          simpa [List.append_assoc] using hr
        have hres2 := hres r hr2
        simpa [List.append_assoc] using hres2

/-- C7: creators are grouped by role: provided no role name is another
role name with `"_list"` appended (which would collide in the Python
dict), `getCreators` succeeds, and for every occurring role the dictionary
holds the `"surname, given-name"` entries of that role joined in query
order with `" and "`, and under the `"_list"` key of the role the parallel
`(given_name, surname)` pairs in the same order. -/
theorem C7_creators (rows : List CRow)
    (hnc : ∀ a ∈ rows, ∀ b ∈ rows, a.role ≠ b.role ++ "_list") :
    ∃ d, getCreators rows = some d ∧
      ∀ r, (∃ x ∈ rows, x.role = r) →
        aget d r = some (DVal.s (roleJoined rows r)) ∧
        aget d (r ++ "_list") = some (DVal.l (roleList rows r)) := by
  have h := creatorsFold_inv rows [] [] (by simpa using hnc)
    (by
      intro r hr
      obtain ⟨x, hx, _⟩ := hr
      cases hx)
    (by intro k _ _; rfl)
  obtain ⟨d, hf, hres⟩ := h
  exact ⟨d, hf, by simpa using hres⟩

/-- C7 witness: authors (Turing, Alan) then (Church, Alonzo) yield the
joined string `Turing, Alan and Church, Alonzo` and the ordered pair
list. -/
theorem C7_creators_witness :
    ∃ d, getCreators rowsW = some d ∧
      aget d "author" = some (DVal.s "Turing, Alan and Church, Alonzo") ∧
      aget d "author_list"
        = some (DVal.l [("Alan", "Turing"), ("Alonzo", "Church")]) := by
  obtain ⟨d, hd, hres⟩ := C7_creators rowsW (by decide)
  have h2 := hres "author" ⟨⟨"author", "Alan", "Turing"⟩, by decide, rfl⟩
  refine ⟨d, hd, ?_, ?_⟩
  · rw [h2.1]
    have hj : roleJoined rowsW "author" = "Turing, Alan and Church, Alonzo" := by
      decide
    rw [hj]
  · have hk : ("author" : String) ++ "_list" = "author_list" := by decide
    rw [← hk, h2.2]
    have hl : roleList rowsW "author"
        = [("Alan", "Turing"), ("Alonzo", "Church")] := by decide
    rw [hl]

end Z2P
